import Mathlib

/-!
# Verification of the ITK `Transform` core against its specification

Shallow embedding of `Modules/Core/Transform/include/itkTransform.hxx`
(parameter-update protocol, Jacobian-based vector/covariant-vector
transport, diffusion-tensor PPD reorientation, symmetric-tensor
congruence transform) and of the `NumericTraits<Vector<T,D>>` sign
predicates from `Modules/Core/Common/include/itkNumericTraitsVectorPixel.h`.

Scalars are modelled as `ℚ` (the C++ code computes over `double`; the
claims under test are exact algebraic statements, so an exact field is
the faithful idealization).  Machine vectors of static length `n` are
`Fin n → ℚ`; `itk::VariableLengthVector` arguments are `List ℚ`;
matrices are Mathlib `Matrix` values (plain functions, fully
executable).  C++ exceptions (`itkExceptionMacro`) are modelled with
`Except`/`Option String` results; a thrown exception leaves the object
untouched, which the embedding reflects by returning the original state
on the error path exactly when the source throws before any member
write.
-/

namespace ItkTransform

/-- Static-length vector of rationals, the model of `itk::Vector`,
`itk::Point` and friends. -/
abbrev Vec (n : ℕ) : Type := Fin n → ℚ

/-- The mutable state owned by a `Transform` object: `m_Parameters`,
`m_FixedParameters`, and the `itk::Object` modification time which
`this->Modified()` bumps (`UpdateTransformParameters` calls it). -/
structure TState where
  params : List ℚ
  fixedParams : List ℚ
  mtime : ℕ
  deriving DecidableEq, Repr

/-- Modelled from the spec: the per-variant extension points consumed by
the generic `Transform` code, none of which live under `src/`.
* `jacF` is the variant's `ComputeJacobianWithRespectToPosition`
  formula; per spec §4.2 it is a pure function of
  `(Parameters, FixedParameters, point)` with no side effects.
* `svdInv` is the external dense-matrix SVD pseudo-inverse routine
  (`vnl_svd_fixed::inverse`, spec §6 collaborator).
* `eigenA` is the external symmetric-3×3 eigen-decomposition routine
  (`DiffusionTensor3D::ComputeEigenAnalysis`, spec §6 collaborator):
  it returns the eigenvalues in ascending order and the matrix whose
  row `k` is the eigenvector of the `k`-th eigenvalue (spec §4.4).
* `sq` is the external square-root routine used by
  `itk::Vector::Normalize` (`std::sqrt`). -/
structure Variant (inN outN : ℕ) where
  jacF : List ℚ → List ℚ → Vec inN → Matrix (Fin outN) (Fin inN) ℚ
  svdInv : Matrix (Fin outN) (Fin inN) ℚ → Matrix (Fin inN) (Fin outN) ℚ
  eigenA : (Fin 6 → ℚ) → (Fin 3 → ℚ) × Matrix (Fin 3) (Fin 3) ℚ
  sq : ℚ → ℚ

/-- Modelled from the spec: `GetNumberOfParameters` returns the size of
`m_Parameters` (spec §3 invariant `len(Parameters) == NumberOfParameters`;
the accessor itself lives in the header, which is not under `src/`). -/
def numberOfParameters (st : TState) : ℕ := st.params.length

/-- `Transform::UpdateTransformParameters` (itkTransform.hxx:66-119).
Throws on size mismatch before touching any member, then adds
`update[k]` (the `factor == 1.0` fast path) or `update[k] * factor` to
each parameter, re-submits the vector through `SetParameters` (base
model: store) and calls `Modified()` (bump `mtime`).  The result pairs
the post-call object state with the raised exception, if any. -/
def UpdateTransformParameters (st : TState) (update : List ℚ) (factor : ℚ) :
    TState × Option String :=
  if update.length ≠ numberOfParameters st then
    (st, some "Parameter update size must be same as transform parameter size")
  else
    let newParams :=
      if factor = 1 then List.zipWith (fun p u => p + u) st.params update
      else List.zipWith (fun p u => p + u * factor) st.params update
    (⟨newParams, st.fixedParams, st.mtime + 1⟩, none)

/-- `Transform::CopyInParameters` (itkTransform.hxx:546-564).  The raw
range is the list `vals`; `aliased` models `begin == &m_Parameters[0]`
(the self-copy guard skips the copy but still forwards).  The returned
`Bool` records whether the vector was forwarded to the variant's
`SetParameters` (parameter-interpretation step). -/
def CopyInParameters (st : TState) (vals : List ℚ) (aliased : Bool) :
    TState × Bool :=
  if vals.isEmpty then (st, false)
  else
    let st1 :=
      if aliased then st
      else (⟨vals ++ st.params.drop vals.length, st.fixedParams, st.mtime⟩ : TState)
    (st1, true)

/-! ## Jacobian engine and vector / covariant-vector transport

Each read-only evaluation is translated as a state transformer
`TState → result × TState` mirroring the C++ control flow: the `const`
method bodies only declare local matrices and never write a member, so
every sub-call threads the object state through unchanged. -/

/-- `ComputeJacobianWithRespectToPosition` (pure virtual; spec §4.2:
pure function of `(Parameters, FixedParameters, point)`, no side
effects, no mutable cache). -/
def ComputeJacobianWithRespectToPositionRun {inN outN : ℕ} (V : Variant inN outN)
    (st : TState) (p : Vec inN) : Matrix (Fin outN) (Fin inN) ℚ × TState :=
  (V.jacF st.params st.fixedParams p, st)

/-- `Transform::ComputeInverseJacobianWithRespectToPosition`
(itkTransform.hxx:531-544): forward Jacobian at the point, then the SVD
pseudo-inverse. -/
def ComputeInverseJacobianWithRespectToPositionRun {inN outN : ℕ} (V : Variant inN outN)
    (st : TState) (p : Vec inN) : Matrix (Fin inN) (Fin outN) ℚ × TState :=
  let r := ComputeJacobianWithRespectToPositionRun V st p
  (V.svdInv r.1, r.2)

/-- Result of `ComputeJacobianWithRespectToPosition` at a point. -/
def ComputeJacobianWithRespectToPosition {inN outN : ℕ} (V : Variant inN outN)
    (st : TState) (p : Vec inN) : Matrix (Fin outN) (Fin inN) ℚ :=
  (ComputeJacobianWithRespectToPositionRun V st p).1

/-- Result of `ComputeInverseJacobianWithRespectToPosition` at a point. -/
def ComputeInverseJacobianWithRespectToPosition {inN outN : ℕ} (V : Variant inN outN)
    (st : TState) (p : Vec inN) : Matrix (Fin inN) (Fin outN) ℚ :=
  (ComputeInverseJacobianWithRespectToPositionRun V st p).1

/-- `Transform::TransformVector(const InputVectorType &, const InputPointType &)`
(itkTransform.hxx:122-141): `result[i]` accumulates
`jacobian[i][j] * vector[j]` starting from zero. -/
def TransformVectorRun {inN outN : ℕ} (V : Variant inN outN) (st : TState)
    (vector : Vec inN) (point : Vec inN) : Vec outN × TState :=
  let r := ComputeJacobianWithRespectToPositionRun V st point
  ((fun i => (List.finRange inN).foldl (fun acc j => acc + r.1 i j * vector j) 0), r.2)

/-- Value returned by the fixed-length `TransformVector` overload. -/
def TransformVector {inN outN : ℕ} (V : Variant inN outN) (st : TState)
    (vector : Vec inN) (point : Vec inN) : Vec outN :=
  (TransformVectorRun V st vector point).1

/-- `Transform::TransformCovariantVector(const InputCovariantVectorType &, const InputPointType &)`
(itkTransform.hxx:197-216): accumulates `jacobian[j][i] * vector[j]`
over the inverse Jacobian. -/
def TransformCovariantVectorRun {inN outN : ℕ} (V : Variant inN outN) (st : TState)
    (vector : Vec inN) (point : Vec inN) : Vec outN × TState :=
  let r := ComputeInverseJacobianWithRespectToPositionRun V st point
  ((fun i => (List.finRange inN).foldl (fun acc j => acc + r.1 j i * vector j) 0), r.2)

/-- Value returned by the fixed-length `TransformCovariantVector` overload. -/
def TransformCovariantVector {inN outN : ℕ} (V : Variant inN outN) (st : TState)
    (vector : Vec inN) (point : Vec inN) : Vec outN :=
  (TransformCovariantVectorRun V st vector point).1

/-- Variable-length `TransformVector(const InputVectorPixelType &, ...)`
(itkTransform.hxx:166-194): throws unless the argument has exactly
`VInputDimension` entries, then applies the forward Jacobian. -/
def TransformVectorVL {inN outN : ℕ} (V : Variant inN outN) (st : TState)
    (vector : List ℚ) (point : Vec inN) : Except String (List ℚ) :=
  if vector.length ≠ inN then
    .error "Input Vector is not of size VInputDimension"
  else
    let jacobian := ComputeJacobianWithRespectToPosition V st point
    .ok ((List.finRange outN).map fun i =>
      (List.finRange inN).foldl (fun acc j => acc + jacobian i j * vector.getD j.val 0) 0)

/-- Variable-length `TransformCovariantVector(const InputVectorPixelType &, ...)`
(itkTransform.hxx:219-247). -/
def TransformCovariantVectorVL {inN outN : ℕ} (V : Variant inN outN) (st : TState)
    (vector : List ℚ) (point : Vec inN) : Except String (List ℚ) :=
  if vector.length ≠ inN then
    .error "Input Vector is not of size VInputDimension"
  else
    let jacobian := ComputeInverseJacobianWithRespectToPosition V st point
    .ok ((List.finRange outN).map fun i =>
      (List.finRange inN).foldl (fun acc j => acc + jacobian j i * vector.getD j.val 0) 0)

/-! ## Tensor reorienter -/

/-- Dot product of two 3-vectors (`itk::Vector::operator*`). -/
def dot3 (a b : Fin 3 → ℚ) : ℚ := ∑ i, a i * b i

/-- `itk::Vector::Normalize`: divide every component by the Euclidean
norm, `sq` standing for the external square-root routine. -/
def normalize3 (sq : ℚ → ℚ) (v : Fin 3 → ℚ) : Fin 3 → ℚ :=
  fun i => v i / sq (dot3 v v)

/-- `itk::CrossHelper` for 3-vectors. -/
def cross3 (a b : Fin 3 → ℚ) : Fin 3 → ℚ :=
  ![a 1 * b 2 - a 2 * b 1, a 2 * b 0 - a 0 * b 2, a 0 * b 1 - a 1 * b 0]

/-- The 3×3 matrix built at the top of
`PreservationOfPrincipalDirectionDiffusionTensor3DReorientation`
(itkTransform.hxx:302-319): identity, overwritten by the entries of the
inverse Jacobian with both indices below 3. -/
def ppdMatrix {inN outN : ℕ} (jacobian : Matrix (Fin inN) (Fin outN) ℚ) :
    Matrix (Fin 3) (Fin 3) ℚ :=
  Matrix.of fun i j =>
    if h : i.val < inN ∧ j.val < outN then jacobian ⟨i.val, h.1⟩ ⟨j.val, h.2⟩
    else if i = j then 1 else 0

/-- The orthogonal-ish frame `(ev1, ev2, ev3)` computed by the PPD
reorientation (itkTransform.hxx:321-350): map the two principal
eigenvectors through the 3×3 block, normalize, sign-flip and
Gram–Schmidt the second, and complete with a cross product. -/
def ppdVectors {inN outN : ℕ} (V : Variant inN outN) (inputTensor : Fin 6 → ℚ)
    (jacobian : Matrix (Fin inN) (Fin outN) ℚ) :
    (Fin 3 → ℚ) × (Fin 3 → ℚ) × (Fin 3 → ℚ) :=
  let m := ppdMatrix jacobian
  let ed := V.eigenA inputTensor
  let ev1 : Fin 3 → ℚ := fun i => ed.2 2 i
  let ev2 : Fin 3 → ℚ := fun i => ed.2 1 i
  let ev1m := m.mulVec ev1
  let ev1n := normalize3 V.sq ev1m
  let ev2m := m.mulVec ev2
  let dp := dot3 ev2m ev1n
  let ev2f := if dp < 0 then fun i => ev2m i * (-1) else ev2m
  let dp2 := if dp < 0 then dp * (-1) else dp
  let ev2g := fun i => ev2f i - ev1n i * dp2
  let ev2n := normalize3 V.sq ev2g
  let ev3 := cross3 ev1n ev2n
  (ev1n, ev2n, ev3)

/-- The `rotated` matrix `e1 + e2 + e3` of the PPD reorientation
(itkTransform.hxx:352-366): eigenvalue-weighted sum of outer products
of the new frame, using the original (ascending) eigenvalues. -/
def ppdRotated {inN outN : ℕ} (V : Variant inN outN) (inputTensor : Fin 6 → ℚ)
    (jacobian : Matrix (Fin inN) (Fin outN) ℚ) : Matrix (Fin 3) (Fin 3) ℚ :=
  let vs := ppdVectors V inputTensor jacobian
  let ed := V.eigenA inputTensor
  Matrix.of fun i j =>
    ed.1 2 * vs.1 i * vs.1 j + ed.1 1 * vs.2.1 i * vs.2.1 j +
      ed.1 0 * vs.2.2 i * vs.2.2 j

/-- `Transform::PreservationOfPrincipalDirectionDiffusionTensor3DReorientation`
(itkTransform.hxx:296-377): the six independent symmetric entries of
`rotated`, in the order `(0,0) (0,1) (0,2) (1,1) (1,2) (2,2)`. -/
def PreservationOfPrincipalDirectionDiffusionTensor3DReorientation {inN outN : ℕ}
    (V : Variant inN outN) (inputTensor : Fin 6 → ℚ)
    (jacobian : Matrix (Fin inN) (Fin outN) ℚ) : Fin 6 → ℚ :=
  let rotated := ppdRotated V inputTensor jacobian
  fun k =>
    if k = 0 then rotated 0 0
    else if k = 1 then rotated 0 1
    else if k = 2 then rotated 0 2
    else if k = 3 then rotated 1 1
    else if k = 4 then rotated 1 2
    else rotated 2 2

/-- Fixed-length `Transform::TransformDiffusionTensor3D`
(itkTransform.hxx:250-263): inverse Jacobian at the point, then PPD
reorientation. -/
def TransformDiffusionTensor3DRun {inN outN : ℕ} (V : Variant inN outN) (st : TState)
    (inputTensor : Fin 6 → ℚ) (point : Vec inN) : (Fin 6 → ℚ) × TState :=
  let r := ComputeInverseJacobianWithRespectToPositionRun V st point
  (PreservationOfPrincipalDirectionDiffusionTensor3DReorientation V inputTensor r.1, r.2)

/-- Value returned by the fixed-length `TransformDiffusionTensor3D` overload. -/
def TransformDiffusionTensor3D {inN outN : ℕ} (V : Variant inN outN) (st : TState)
    (inputTensor : Fin 6 → ℚ) (point : Vec inN) : Fin 6 → ℚ :=
  (TransformDiffusionTensor3DRun V st inputTensor point).1

/-- Variable-length `Transform::TransformDiffusionTensor3D`
(itkTransform.hxx:266-293).  Throws unless the argument has exactly 6
entries.  The copy into the fixed-length tensor runs `for i < 5`, so the
sixth input component is left at the default-constructed value (the
`DiffusionTensor3D` constructor zero-fills; the class is external to
`src/`).  The output `VariableLengthVector` is sized to 6 and written
`for i < 5`, so its sixth element is never assigned: unwritten elements
are modelled as `none`. -/
def TransformDiffusionTensor3DVL {inN outN : ℕ} (V : Variant inN outN) (st : TState)
    (inputTensor : List ℚ) (point : Vec inN) : Except String (List (Option ℚ)) :=
  if inputTensor.length ≠ 6 then
    .error "Input DiffusionTensor3D does not have 6 elements"
  else
    let inTensor : Fin 6 → ℚ := fun i => if i.val < 5 then inputTensor.getD i.val 0 else 0
    let outTensor := TransformDiffusionTensor3D V st inTensor point
    .ok ((List.finRange 6).map fun i => if i.val < 5 then some (outTensor i) else none)

/-- Fixed-length `Transform::TransformSymmetricSecondRankTensor`
(itkTransform.hxx:380-413): congruence `jacobian * tensor * invJacobian`.
Both Jacobian computations run in sequence on the threaded state. -/
def TransformSymmetricSecondRankTensorRun {inN outN : ℕ} (V : Variant inN outN)
    (st : TState) (inputTensor : Matrix (Fin inN) (Fin inN) ℚ) (point : Vec inN) :
    Matrix (Fin outN) (Fin outN) ℚ × TState :=
  let r1 := ComputeJacobianWithRespectToPositionRun V st point
  let r2 := ComputeInverseJacobianWithRespectToPositionRun V r1.2 point
  (r1.1 * inputTensor * r2.1, r2.2)

/-- Value returned by the fixed-length `TransformSymmetricSecondRankTensor`
overload. -/
def TransformSymmetricSecondRankTensor {inN outN : ℕ} (V : Variant inN outN)
    (st : TState) (inputTensor : Matrix (Fin inN) (Fin inN) ℚ) (point : Vec inN) :
    Matrix (Fin outN) (Fin outN) ℚ :=
  (TransformSymmetricSecondRankTensorRun V st inputTensor point).1

/-- Variable-length `Transform::TransformSymmetricSecondRankTensor`
(itkTransform.hxx:416-458): throws unless the argument has exactly
`VInputDimension²` entries; reads entry `(i,j)` at flat index
`j + VInputDimension * i` and writes the result row-major the same way. -/
def TransformSymmetricSecondRankTensorVL {inN outN : ℕ} (V : Variant inN outN)
    (st : TState) (inputTensor : List ℚ) (point : Vec inN) : Except String (List ℚ) :=
  if inputTensor.length ≠ inN * inN then
    .error "Input DiffusionTensor3D does not have InputDimension * InputDimension elements"
  else
    let jacobian := ComputeJacobianWithRespectToPosition V st point
    let invJacobian := ComputeInverseJacobianWithRespectToPosition V st point
    let tensor : Matrix (Fin inN) (Fin inN) ℚ :=
      Matrix.of fun i j => inputTensor.getD (j.val + inN * i.val) 0
    let outTensor := jacobian * tensor * invJacobian
    .ok ((List.finRange outN).flatMap fun i => (List.finRange outN).map fun j => outTensor i j)

/-! ## NumericTraits for `Vector<T, D>` pixels -/

/-- `NumericTraits<Vector<T,D>>::IsPositive`
(itkNumericTraitsVectorPixel.h:132-144): a flag starts `false` and is
set whenever a component exceeds `ZeroValue()`. -/
def IsPositive {D : ℕ} (a : Fin D → ℚ) : Bool :=
  (List.finRange D).foldl (fun flag i => if a i > 0 then true else flag) false

/-- `NumericTraits<Vector<T,D>>::IsNonpositive`
(itkNumericTraitsVectorPixel.h:146-158): a flag starts `false` and is
set whenever a component fails `a[i] > 0.0` (literal zero). -/
def IsNonpositive {D : ℕ} (a : Fin D → ℚ) : Bool :=
  (List.finRange D).foldl (fun flag i => if ¬ (a i > 0) then true else flag) false

/-! ## Symmetric-matrix view and quadratic form (for the PSD claim) -/

/-- The symmetric 3×3 matrix denoted by the six independent entries of a
`DiffusionTensor3D` (order `xx xy xz yy yz zz`). -/
def toMat (t : Fin 6 → ℚ) : Matrix (Fin 3) (Fin 3) ℚ :=
  Matrix.of fun i j =>
    if i = 0 then (if j = 0 then t 0 else if j = 1 then t 1 else t 2)
    else if i = 1 then (if j = 0 then t 1 else if j = 1 then t 3 else t 4)
    else (if j = 0 then t 2 else if j = 1 then t 4 else t 5)

/-- Quadratic form `xᵀ M x` of a 3×3 matrix. -/
def quadForm (M : Matrix (Fin 3) (Fin 3) ℚ) (x : Fin 3 → ℚ) : ℚ :=
  ∑ i, ∑ j, x i * M i j * x j

/-! ## Concrete instances used by witnesses and counterexamples -/

/-- A concrete eigen-decomposition routine valid on the tensors the
witnesses touch: the identity tensor, the pure-`zz` tensor, and the zero
tensor each get their exact ascending eigenvalues with the standard
basis (rows of the identity matrix) as eigenvectors. -/
def eigenConc (t : Fin 6 → ℚ) : (Fin 3 → ℚ) × Matrix (Fin 3) (Fin 3) ℚ :=
  if t 0 = 1 then (![1, 1, 1], 1)
  else if t 5 = 1 then (![0, 0, 1], 1)
  else (![0, 0, 0], 1)

/-- A concrete 3-D variant: identity Jacobian everywhere (so the SVD
pseudo-inverse is also the identity), `eigenConc` as the
eigen-decomposition routine, and the identity as square root (exact on
the only norm the witnesses produce, `1`). -/
def Vconc : Variant 3 3 :=
  ⟨fun _ _ _ => 1, fun _ => 1, eigenConc, id⟩

/-- A concrete transform state. -/
def st0 : TState := ⟨[0], [], 0⟩

/-- The identity diffusion tensor `(1,0,0,1,0,1)` (unit `xx`, `yy`,
`zz`), a symmetric positive-definite input. -/
def identityTensor : Fin 6 → ℚ := ![1, 0, 0, 1, 0, 1]

/-- The origin. -/
def p0 : Vec 3 := fun _ => 0

end ItkTransform

namespace ItkTransform

/-! ## List helper lemmas for the parameter-update protocol -/

theorem getD_zipWith_addMul (f : ℚ) :
    ∀ (p u : List ℚ), p.length = u.length → ∀ k : ℕ,
      (List.zipWith (fun a b => a + b * f) p u).getD k 0 =
        p.getD k 0 + u.getD k 0 * f := by
  intro p
  induction p with
  | nil =>
    intro u h k
    cases u with
    | nil => simp
    | cons b u => simp at h
  | cons a p ih =>
    intro u h k
    cases u with
    | nil => simp at h
    | cons b u =>
      cases k with
      | zero => simp
      | succ k =>
        simpa using ih u (by simpa using h) k

theorem getD_zipWith_add :
    ∀ (p u : List ℚ), p.length = u.length → ∀ k : ℕ,
      (List.zipWith (fun a b => a + b) p u).getD k 0 =
        p.getD k 0 + u.getD k 0 := by
  intro p
  induction p with
  | nil =>
    intro u h k
    cases u with
    | nil => simp
    | cons b u => simp at h
  | cons a p ih =>
    intro u h k
    cases u with
    | nil => simp at h
    | cons b u =>
      cases k with
      | zero => simp
      | succ k =>
        simpa using ih u (by simpa using h) k

theorem zipWith_add_then_sub :
    ∀ (p u : List ℚ), p.length = u.length →
      List.zipWith (fun a b => a + b * (-1))
        (List.zipWith (fun a b => a + b) p u) u = p := by
  intro p
  induction p with
  | nil => intro u h; cases u <;> simp_all
  | cons a p ih =>
    intro u h
    cases u with
    | nil => simp at h
    | cons b u =>
      simp only [List.zipWith, List.cons.injEq]
      exact ⟨by ring, ih u (by simpa using h)⟩

/-! ## Loop-accumulation helper lemmas -/

theorem foldl_add_eq {α : Type} (f : α → ℚ) :
    ∀ (l : List α) (c : ℚ),
      l.foldl (fun acc j => acc + f j) c = c + (l.map f).sum := by
  intro l
  induction l with
  | nil => intro c; simp
  | cons a l ih => intro c; simp [ih, add_assoc]

theorem foldl_add_finRange {n : ℕ} (f : Fin n → ℚ) :
    (List.finRange n).foldl (fun acc j => acc + f j) 0 = ∑ j, f j := by
  rw [foldl_add_eq, Fin.sum_univ_def, zero_add]

theorem foldl_flag_eq_any {α : Type} (P : α → Prop) [DecidablePred P] :
    ∀ (l : List α) (b : Bool),
      l.foldl (fun flag i => if P i then true else flag) b =
        (b || l.any fun i => decide (P i)) := by
  intro l
  induction l with
  | nil => intro b; simp
  | cons a l ih =>
    intro b
    simp only [List.foldl_cons, List.any_cons]
    by_cases h : P a
    · rw [if_pos h, ih]
      simp [h]
    · rw [if_neg h, ih]
      simp [h]

/-! ## Claim theorems -/

/-- C2: with an update of matching length, `UpdateTransformParameters`
raises nothing; `UpdateTransformParameters(update, factor)` sets
`Parameters[k]` to `Parameters[k] + update[k] * factor` for every `k`
(so `factor = 1` adds the update directly), and applying the update with
factor `1` and then factor `-1` restores the original parameter vector
exactly. -/
theorem UpdateTransformParameters_adds_scaled_update (st : TState) (update : List ℚ)
    (h : update.length = numberOfParameters st) :
    (∀ factor : ℚ,
        (UpdateTransformParameters st update factor).2 = none ∧
        ∀ k : ℕ,
          (UpdateTransformParameters st update factor).1.params.getD k 0 =
            st.params.getD k 0 + update.getD k 0 * factor) ∧
    (∀ k : ℕ,
        (UpdateTransformParameters st update 1).1.params.getD k 0 =
          st.params.getD k 0 + update.getD k 0) ∧
    (UpdateTransformParameters
        (UpdateTransformParameters st update 1).1 update (-1)).1.params = st.params := by
  have hp : st.params.length = update.length := h.symm
  have hc : ¬update.length ≠ numberOfParameters st := fun hne => hne h
  have hrun : ∀ factor : ℚ, UpdateTransformParameters st update factor =
      (⟨if factor = 1 then List.zipWith (fun p u => p + u) st.params update
          else List.zipWith (fun p u => p + u * factor) st.params update,
        st.fixedParams, st.mtime + 1⟩, none) := by
    intro factor
    unfold UpdateTransformParameters
    rw [if_neg hc]
  have hrun1 : UpdateTransformParameters st update 1 =
      (⟨List.zipWith (fun p u => p + u) st.params update,
        st.fixedParams, st.mtime + 1⟩, none) := by
    rw [hrun 1, if_pos rfl]
  refine ⟨?_, ?_, ?_⟩
  · intro factor
    rw [hrun factor]
    refine ⟨rfl, ?_⟩
    intro k
    by_cases hf : factor = 1
    · subst hf
      rw [if_pos rfl]
      show (List.zipWith (fun p u => p + u) st.params update).getD k 0 = _
      rw [mul_one]
      exact getD_zipWith_add st.params update hp k
    · rw [if_neg hf]
      exact getD_zipWith_addMul factor st.params update hp k
  · intro k
    rw [hrun1]
    exact getD_zipWith_add st.params update hp k
  · rw [hrun1]
    have h1 : (List.zipWith (fun p u => p + u) st.params update).length = update.length := by
      rw [List.length_zipWith, hp, min_self]
    have hc2 : ¬update.length ≠
        numberOfParameters ⟨List.zipWith (fun p u => p + u) st.params update,
          st.fixedParams, st.mtime + 1⟩ := by
      simp [numberOfParameters, h1]
    unfold UpdateTransformParameters
    rw [if_neg hc2, if_neg (by norm_num : ¬(-1 : ℚ) = 1)]
    exact zipWith_add_then_sub st.params update hp

/-- Witness for C2 at `Parameters = [1, 2]`, `update = [10, 20]`. -/
theorem UpdateTransformParameters_adds_scaled_update_witness :
    (UpdateTransformParameters
        (UpdateTransformParameters ⟨[1, 2], [], 0⟩ [10, 20] 1).1 [10, 20] (-1)).1.params
      = [1, 2] ∧
    (UpdateTransformParameters ⟨[1, 2], [], 0⟩ [10, 20] (-2)).1.params.getD 0 0
      = 1 + 10 * (-2) :=
  ⟨(UpdateTransformParameters_adds_scaled_update ⟨[1, 2], [], 0⟩ [10, 20] rfl).2.2,
    ((UpdateTransformParameters_adds_scaled_update ⟨[1, 2], [], 0⟩ [10, 20] rfl).1 (-2)).2 0⟩

/-- C3: `UpdateTransformParameters` raises the size-mismatch error and
returns the object state exactly as before the call (both `Parameters`
and `FixedParameters` untouched) whenever the update length differs
from `NumberOfParameters`; when the lengths match, no error is
raised. -/
theorem UpdateTransformParameters_size_mismatch (st : TState) (update : List ℚ)
    (factor : ℚ) :
    (update.length ≠ numberOfParameters st →
      ∃ e, UpdateTransformParameters st update factor = (st, some e)) ∧
    (update.length = numberOfParameters st →
      (UpdateTransformParameters st update factor).2 = none) := by
  constructor
  · intro hne
    refine ⟨"Parameter update size must be same as transform parameter size", ?_⟩
    unfold UpdateTransformParameters
    rw [if_pos hne]
  · intro h
    have hc : ¬update.length ≠ numberOfParameters st := fun hne => hne h
    unfold UpdateTransformParameters
    rw [if_neg hc]

/-- Witness for C3: a 2-element update against a 1-parameter transform
fails and leaves the state untouched. -/
theorem UpdateTransformParameters_size_mismatch_witness :
    ∃ e, UpdateTransformParameters st0 [1, 2] 1 = (st0, some e) :=
  (UpdateTransformParameters_size_mismatch st0 [1, 2] 1).1 (by decide)

/-- C8: `CopyInParameters(begin, begin)` with an empty range returns
immediately: `Parameters` (indeed the whole state) is unchanged and the
vector is not forwarded to the variant's parameter-interpretation step
(`SetParameters` is not called, recorded by the `false` flag). -/
theorem CopyInParameters_empty_range_noop (st : TState) (aliased : Bool) :
    CopyInParameters st [] aliased = (st, false) := rfl

/-- C5: `TransformVector(v, p)[i]` is exactly
`Σ_j Jacobian(p)[i][j] * v[j]` with the Jacobian obtained from
`ComputeJacobianWithRespectToPosition` at `p`; in particular no
translation term contributes. -/
theorem TransformVector_is_jacobian_action {inN outN : ℕ} (V : Variant inN outN)
    (st : TState) (v : Vec inN) (p : Vec inN) (i : Fin outN) :
    TransformVector V st v p i =
      ∑ j, ComputeJacobianWithRespectToPosition V st p i j * v j := by
  unfold TransformVector TransformVectorRun
  exact foldl_add_finRange fun j => _

/-- C6: `TransformCovariantVector(v, p)[i]` is exactly
`Σ_j InverseJacobian(p)[j][i] * v[j]` with the inverse Jacobian obtained
from `ComputeInverseJacobianWithRespectToPosition` at `p` (the
transpose of the inverse Jacobian acts on `v`). -/
theorem TransformCovariantVector_is_invJacobian_transpose_action {inN outN : ℕ}
    (V : Variant inN outN) (st : TState) (v : Vec inN) (p : Vec inN) (i : Fin outN) :
    TransformCovariantVector V st v p i =
      ∑ j, ComputeInverseJacobianWithRespectToPosition V st p j i * v j := by
  unfold TransformCovariantVector TransformCovariantVectorRun
  exact foldl_add_finRange fun j => _

/-- C7: each variable-length overload raises a size error exactly when
its argument has the wrong length, before any computation:
`TransformVector` and `TransformCovariantVector` require
`InputDimension` entries, `TransformDiffusionTensor3D` exactly 6, and
`TransformSymmetricSecondRankTensor` exactly `InputDimension²`. -/
theorem variableLength_overloads_raise_iff_size_mismatch {inN outN : ℕ}
    (V : Variant inN outN) (st : TState) (p : Vec inN) :
    (∀ vector : List ℚ,
      (∃ e, TransformVectorVL V st vector p = .error e) ↔ vector.length ≠ inN) ∧
    (∀ vector : List ℚ,
      (∃ e, TransformCovariantVectorVL V st vector p = .error e) ↔ vector.length ≠ inN) ∧
    (∀ t : List ℚ,
      (∃ e, TransformDiffusionTensor3DVL V st t p = .error e) ↔ t.length ≠ 6) ∧
    (∀ t : List ℚ,
      (∃ e, TransformSymmetricSecondRankTensorVL V st t p = .error e) ↔
        t.length ≠ inN * inN) := by
  refine ⟨fun vector => ?_, fun vector => ?_, fun t => ?_, fun t => ?_⟩
  · by_cases hl : vector.length = inN <;> simp [TransformVectorVL, hl]
  · by_cases hl : vector.length = inN <;> simp [TransformCovariantVectorVL, hl]
  · by_cases hl : t.length = 6 <;> simp [TransformDiffusionTensor3DVL, hl]
  · by_cases hl : t.length = inN * inN <;>
      simp [TransformSymmetricSecondRankTensorVL, hl]

/-- C9: every read-only evaluation is a pure function of
`(Parameters, FixedParameters, argument, point)`: it returns the object
state unchanged (no hidden cache is written), and two invocations on
states that agree on `Parameters` and `FixedParameters` (whatever their
modification times) return equal results. -/
theorem readOnly_evaluations_pure {inN outN : ℕ} (V : Variant inN outN)
    (st1 st2 : TState) (hp : st1.params = st2.params)
    (hf : st1.fixedParams = st2.fixedParams) :
    (∀ p, (ComputeJacobianWithRespectToPositionRun V st1 p).2 = st1 ∧
      (ComputeJacobianWithRespectToPositionRun V st1 p).1 =
        (ComputeJacobianWithRespectToPositionRun V st2 p).1) ∧
    (∀ p, (ComputeInverseJacobianWithRespectToPositionRun V st1 p).2 = st1 ∧
      (ComputeInverseJacobianWithRespectToPositionRun V st1 p).1 =
        (ComputeInverseJacobianWithRespectToPositionRun V st2 p).1) ∧
    (∀ v p, (TransformVectorRun V st1 v p).2 = st1 ∧
      (TransformVectorRun V st1 v p).1 = (TransformVectorRun V st2 v p).1) ∧
    (∀ v p, (TransformCovariantVectorRun V st1 v p).2 = st1 ∧
      (TransformCovariantVectorRun V st1 v p).1 =
        (TransformCovariantVectorRun V st2 v p).1) ∧
    (∀ T p, (TransformDiffusionTensor3DRun V st1 T p).2 = st1 ∧
      (TransformDiffusionTensor3DRun V st1 T p).1 =
        (TransformDiffusionTensor3DRun V st2 T p).1) ∧
    (∀ T p, (TransformSymmetricSecondRankTensorRun V st1 T p).2 = st1 ∧
      (TransformSymmetricSecondRankTensorRun V st1 T p).1 =
        (TransformSymmetricSecondRankTensorRun V st2 T p).1) := by
  refine ⟨fun p => ⟨rfl, ?_⟩, fun p => ⟨rfl, ?_⟩, fun v p => ⟨rfl, ?_⟩,
    fun v p => ⟨rfl, ?_⟩, fun T p => ⟨rfl, ?_⟩, fun T p => ⟨rfl, ?_⟩⟩ <;>
    simp [ComputeJacobianWithRespectToPositionRun,
      ComputeInverseJacobianWithRespectToPositionRun, TransformVectorRun,
      TransformCovariantVectorRun, TransformDiffusionTensor3DRun,
      TransformSymmetricSecondRankTensorRun, hp, hf]

/-- Witness for C9: two states sharing parameters but with different
modification times; `TransformVector` agrees and leaves the state
intact. -/
theorem readOnly_evaluations_pure_witness :
    (TransformVectorRun Vconc ⟨[1], [2], 0⟩ p0 p0).2 = ⟨[1], [2], 0⟩ ∧
    (TransformVectorRun Vconc ⟨[1], [2], 0⟩ p0 p0).1 =
      (TransformVectorRun Vconc ⟨[1], [2], 7⟩ p0 p0).1 :=
  (readOnly_evaluations_pure Vconc ⟨[1], [2], 0⟩ ⟨[1], [2], 7⟩ rfl rfl).2.2.1 p0 p0

/-- C10: the `NumericTraits<Vector<T,D>>` sign predicates are
existentially quantified over components: `IsPositive` holds iff some
component is `> 0`, `IsNonpositive` holds iff some component fails
`> 0.0`; hence a vector with both a positive and a non-positive
component satisfies both predicates — they are not logical negations of
each other. -/
theorem IsPositive_IsNonpositive_existential :
    ∀ (D : ℕ) (a : Fin D → ℚ),
      (IsPositive a = true ↔ ∃ i, a i > 0) ∧
      (IsNonpositive a = true ↔ ∃ i, ¬ (a i > 0)) ∧
      ((∃ i, a i > 0) → (∃ j, ¬ (a j > 0)) →
        IsPositive a = true ∧ IsNonpositive a = true) := by
  intro D a
  have h1 : IsPositive a = true ↔ ∃ i, a i > 0 := by
    rw [IsPositive, foldl_flag_eq_any]
    simp [List.any_eq_true]
  have h2 : IsNonpositive a = true ↔ ∃ i, ¬ (a i > 0) := by
    rw [IsNonpositive, foldl_flag_eq_any]
    simp [List.any_eq_true]
  exact ⟨h1, h2, fun he hn => ⟨h1.mpr he, h2.mpr hn⟩⟩

/-- Witness for C10: the vector `(1, -1)` satisfies `IsPositive` and
`IsNonpositive` simultaneously. -/
theorem IsPositive_IsNonpositive_existential_witness :
    IsPositive (![1, -1] : Fin 2 → ℚ) = true ∧
    IsNonpositive (![1, -1] : Fin 2 → ℚ) = true :=
  (IsPositive_IsNonpositive_existential 2 ![1, -1]).2.2
    ⟨0, by norm_num⟩ ⟨1, by norm_num⟩

/-- C1 (counter-evidence): the variable-length `TransformDiffusionTensor3D`
overload copies only components `0..4` of its argument (`for i < 5`,
itkTransform.hxx:278-281) and writes only components `0..4` of its
6-element result (itkTransform.hxx:287-290).  On the tensor
`(0,0,0,0,0,1)` under the identity transform, the fixed-length overload
returns `1` at component 5, while the variable-length overload treats
the input `zz` entry as `0` and leaves the sixth output element
unassigned (`none`): the two representations are not interchangeable. -/
theorem TransformDiffusionTensor3DVL_drops_sixth_component :
    TransformDiffusionTensor3DVL Vconc st0 [0, 0, 0, 0, 0, 1] p0 =
      .ok [some 0, some 0, some 0, some 0, some 0, none] ∧
    TransformDiffusionTensor3D Vconc st0 (![0, 0, 0, 0, 0, 1]) p0 5 = 1 := by
  constructor
  · have hfr : List.finRange 6 = [0, 1, 2, 3, 4, 5] := by decide
    have hinT : (fun i : Fin 6 =>
        if i.val < 5 then ([0, 0, 0, 0, 0, 1] : List ℚ).getD i.val 0 else 0) =
        (fun _ : Fin 6 => (0 : ℚ)) := by
      funext i; fin_cases i <;> rfl
    have hv0 : ((0 : Fin 6)).val = 0 := rfl
    have hv1 : ((1 : Fin 6)).val = 1 := rfl
    have hv2 : ((2 : Fin 6)).val = 2 := rfl
    have hv3 : ((3 : Fin 6)).val = 3 := rfl
    have hv4 : ((4 : Fin 6)).val = 4 := rfl
    have hv5 : ((5 : Fin 6)).val = 5 := rfl
    simp [TransformDiffusionTensor3DVL, hfr, hinT, hv0, hv1, hv2, hv3, hv4, hv5,
      TransformDiffusionTensor3D, TransformDiffusionTensor3DRun,
      ComputeInverseJacobianWithRespectToPositionRun, ComputeJacobianWithRespectToPositionRun,
      PreservationOfPrincipalDirectionDiffusionTensor3DReorientation, ppdRotated, ppdVectors,
      ppdMatrix, eigenConc, Vconc, st0, p0, normalize3, dot3, cross3, Matrix.mulVec,
      Matrix.dotProduct, Fin.sum_univ_three, Matrix.of_apply, Matrix.one_apply,
      Matrix.cons_val_zero, Matrix.cons_val_one, Matrix.head_cons]
  · have h0 : (![0, 0, 0, 0, 0, 1] : Fin 6 → ℚ) 0 = 0 := rfl
    have h5 : (![0, 0, 0, 0, 0, 1] : Fin 6 → ℚ) 5 = 1 := rfl
    simp [TransformDiffusionTensor3D, TransformDiffusionTensor3DRun,
      ComputeInverseJacobianWithRespectToPositionRun, ComputeJacobianWithRespectToPositionRun,
      PreservationOfPrincipalDirectionDiffusionTensor3DReorientation, ppdRotated, ppdVectors,
      ppdMatrix, eigenConc, Vconc, st0, p0, h0, h5, normalize3, dot3, cross3, Matrix.mulVec,
      Matrix.dotProduct, Fin.sum_univ_three, Matrix.of_apply, Matrix.one_apply,
      Matrix.cons_val_zero, Matrix.cons_val_one, Matrix.head_cons]

/-- C4: for a symmetric positive-definite input tensor (witnessed by a
valid orthonormal eigen-decomposition and a positive-definite quadratic
form) and a non-singular Jacobian, the tensor returned by the
fixed-length `TransformDiffusionTensor3D` (PPD reorientation) denotes a
symmetric positive semi-definite matrix: the reconstructed `rotated`
matrix is symmetric, the six returned entries denote exactly that
matrix, and its quadratic form is non-negative everywhere. -/
theorem TransformDiffusionTensor3D_symmetric_psd (V : Variant 3 3) (st : TState)
    (p : Vec 3) (T : Fin 6 → ℚ)
    (_hdet : (ComputeJacobianWithRespectToPosition V st p).det ≠ 0)
    (hdecomp : ∀ i j, toMat T i j =
      ∑ k, (V.eigenA T).1 k * (V.eigenA T).2 k i * (V.eigenA T).2 k j)
    (horth : ∀ k l, dot3 ((V.eigenA T).2 k) ((V.eigenA T).2 l) =
      if k = l then 1 else 0)
    (hpd : ∀ x : Fin 3 → ℚ, x ≠ 0 → 0 < quadForm (toMat T) x) :
    (∀ i j, ppdRotated V T (ComputeInverseJacobianWithRespectToPosition V st p) i j =
      ppdRotated V T (ComputeInverseJacobianWithRespectToPosition V st p) j i) ∧
    (∀ i j, toMat (TransformDiffusionTensor3D V st T p) i j =
      ppdRotated V T (ComputeInverseJacobianWithRespectToPosition V st p) i j) ∧
    (∀ x : Fin 3 → ℚ, 0 ≤ quadForm (toMat (TransformDiffusionTensor3D V st T p)) x) := by
  have hq : ∀ y : Fin 3 → ℚ, quadForm (toMat T) y =
      ∑ l, (V.eigenA T).1 l * (dot3 ((V.eigenA T).2 l) y) ^ 2 := by
    intro y
    simp only [quadForm, dot3, Fin.sum_univ_three, hdecomp]
    ring
  have hlam : ∀ k, (V.eigenA T).1 k = quadForm (toMat T) ((V.eigenA T).2 k) := by
    intro k
    rw [hq ((V.eigenA T).2 k), Fin.sum_univ_three, horth 0 k, horth 1 k, horth 2 k]
    fin_cases k <;> simp
  have hE : ∀ k, ((V.eigenA T).2 k : Fin 3 → ℚ) ≠ 0 := by
    intro k h0
    have h := horth k k
    rw [h0] at h
    simp [dot3] at h
  have hpos : ∀ k, 0 < (V.eigenA T).1 k := by
    intro k
    have h1 := hpd ((V.eigenA T).2 k) (hE k)
    rwa [← hlam k] at h1
  have hsymm : ∀ i j,
      ppdRotated V T (ComputeInverseJacobianWithRespectToPosition V st p) i j =
      ppdRotated V T (ComputeInverseJacobianWithRespectToPosition V st p) j i := by
    intro i j
    simp only [ppdRotated, Matrix.of_apply]
    ring
  have hlink : ∀ i j, toMat (TransformDiffusionTensor3D V st T p) i j =
      ppdRotated V T (ComputeInverseJacobianWithRespectToPosition V st p) i j := by
    intro i j
    fin_cases i <;> fin_cases j <;>
      simp [toMat, TransformDiffusionTensor3D, TransformDiffusionTensor3DRun,
        PreservationOfPrincipalDirectionDiffusionTensor3DReorientation,
        ComputeInverseJacobianWithRespectToPosition, ppdRotated, Matrix.of_apply] <;>
      ring
  refine ⟨hsymm, hlink, ?_⟩
  intro x
  have hmat : toMat (TransformDiffusionTensor3D V st T p) =
      ppdRotated V T (ComputeInverseJacobianWithRespectToPosition V st p) := by
    funext i j
    exact hlink i j
  rw [hmat]
  have hswap : quadForm
      (ppdRotated V T (ComputeInverseJacobianWithRespectToPosition V st p)) x =
      (V.eigenA T).1 2 *
        (dot3 (ppdVectors V T (ComputeInverseJacobianWithRespectToPosition V st p)).1 x) ^ 2 +
      (V.eigenA T).1 1 *
        (dot3 (ppdVectors V T (ComputeInverseJacobianWithRespectToPosition V st p)).2.1 x) ^ 2 +
      (V.eigenA T).1 0 *
        (dot3 (ppdVectors V T (ComputeInverseJacobianWithRespectToPosition V st p)).2.2 x) ^ 2 := by
    simp only [quadForm, ppdRotated, Matrix.of_apply, dot3, Fin.sum_univ_three]
    ring
  rw [hswap]
  have h2 := mul_nonneg (hpos 2).le
    (sq_nonneg (dot3 (ppdVectors V T (ComputeInverseJacobianWithRespectToPosition V st p)).1 x))
  have h1 := mul_nonneg (hpos 1).le
    (sq_nonneg (dot3 (ppdVectors V T (ComputeInverseJacobianWithRespectToPosition V st p)).2.1 x))
  have h0 := mul_nonneg (hpos 0).le
    (sq_nonneg (dot3 (ppdVectors V T (ComputeInverseJacobianWithRespectToPosition V st p)).2.2 x))
  linarith

/-- Witness for C4 at the identity transform and the identity tensor:
the non-singularity, decomposition, orthonormality and
positive-definiteness hypotheses all hold, and the theorem yields the
matrix-link equality at entry `(0,1)` and non-negativity of the output
quadratic form at `(1,2,3)`. -/
theorem TransformDiffusionTensor3D_symmetric_psd_witness :
    (ComputeJacobianWithRespectToPosition Vconc st0 p0).det ≠ 0 ∧
    toMat (TransformDiffusionTensor3D Vconc st0 identityTensor p0) 0 1 =
      ppdRotated Vconc identityTensor
        (ComputeInverseJacobianWithRespectToPosition Vconc st0 p0) 0 1 ∧
    (0 : ℚ) ≤ quadForm
      (toMat (TransformDiffusionTensor3D Vconc st0 identityTensor p0)) ![1, 2, 3] := by
  have e0 : identityTensor 0 = 1 := rfl
  have e1 : identityTensor 1 = 0 := rfl
  have e2 : identityTensor 2 = 0 := rfl
  have e3 : identityTensor 3 = 1 := rfl
  have e4 : identityTensor 4 = 0 := rfl
  have e5 : identityTensor 5 = 1 := rfl
  have hdet : (ComputeJacobianWithRespectToPosition Vconc st0 p0).det ≠ 0 := by
    simp [ComputeJacobianWithRespectToPosition, ComputeJacobianWithRespectToPositionRun,
      Vconc, Matrix.det_one]
  have hdecomp : ∀ i j, toMat identityTensor i j =
      ∑ k, (Vconc.eigenA identityTensor).1 k * (Vconc.eigenA identityTensor).2 k i *
        (Vconc.eigenA identityTensor).2 k j := by
    intro i j
    fin_cases i <;> fin_cases j <;>
      simp [toMat, eigenConc, Vconc, e0, e1, e2, e3, e4, e5, Matrix.one_apply,
        Fin.sum_univ_three, Matrix.of_apply, Matrix.cons_val_zero, Matrix.cons_val_one,
        Matrix.head_cons]
  have horth : ∀ k l, dot3 ((Vconc.eigenA identityTensor).2 k)
      ((Vconc.eigenA identityTensor).2 l) = if k = l then 1 else 0 := by
    intro k l
    fin_cases k <;> fin_cases l <;>
      simp [dot3, eigenConc, Vconc, e0, Matrix.one_apply, Fin.sum_univ_three]
  have hpd : ∀ x : Fin 3 → ℚ, x ≠ 0 → 0 < quadForm (toMat identityTensor) x := by
    intro x hx
    have hq : quadForm (toMat identityTensor) x = x 0 ^ 2 + x 1 ^ 2 + x 2 ^ 2 := by
      simp [quadForm, toMat, e0, e1, e2, e3, e4, e5, Fin.sum_univ_three, Matrix.of_apply]
      ring
    rw [hq]
    have hcomp : x 0 ≠ 0 ∨ x 1 ≠ 0 ∨ x 2 ≠ 0 := by
      by_contra hc
      push_neg at hc
      exact hx (funext fun i => by fin_cases i <;> simp [hc.1, hc.2.1, hc.2.2])
    rcases hcomp with h | h | h
    · have := sq_pos_of_ne_zero h
      nlinarith [sq_nonneg (x 1), sq_nonneg (x 2)]
    · have := sq_pos_of_ne_zero h
      nlinarith [sq_nonneg (x 0), sq_nonneg (x 2)]
    · have := sq_pos_of_ne_zero h
      nlinarith [sq_nonneg (x 0), sq_nonneg (x 1)]
  exact ⟨hdet,
    (TransformDiffusionTensor3D_symmetric_psd Vconc st0 p0 identityTensor
      hdet hdecomp horth hpd).2.1 0 1,
    (TransformDiffusionTensor3D_symmetric_psd Vconc st0 p0 identityTensor
      hdet hdecomp horth hpd).2.2 ![1, 2, 3]⟩
